import Mathlib

/-!
Shallow embedding of the aggregation core of `pycoQC.py` (class `pycoQC`).

Modelling conventions:
* a pandas `DataFrame` row is a `RawRecord` (every column may hold NaN,
  modelled as `Option`); `df.dropna()` keeps exactly the fully populated
  rows, which become `Record`s;
* numeric columns (`start_time`, `duration`, `mean_qscore_template`) are
  exact rationals, counts and lengths are naturals;
* a raised Python exception is an explicit `PyErr` value and a fallible
  routine returns `Except PyErr _`;
* only the data/aggregation part of each method is embedded; the plotting
  calls (`pl.subplots`, `sns.heatmap`, axis styling) are presentation and
  carry no data semantics.
-/

namespace PycoQC

/-- The Python exceptions raised by the modelled code paths:
`IndexError` (`runid_counts.index[0]` on an empty series),
`KeyError` (`runid_counts.loc[runid]` for an absent key),
`ValueError` (`max()` of an empty sequence, `int(nan)`, bad `reshape`),
`OverflowError` (`int(-inf)`, from `int(np.log10(0))`). -/
inductive PyErr where
  | indexError
  | keyError
  | valueError
  | overflowError
deriving DecidableEq

/-- One fully populated row of the Albacore `sequencing_summary.txt`
table, with the columns `pycoQC.py` reads. -/
structure Record where
  read_id : String
  run_id : String
  channel : Nat
  start_time : Rat
  duration : Rat
  sequence_length_template : Nat
  mean_qscore_template : Rat
  num_events : Nat
deriving DecidableEq

/-- A raw parsed row: any column may hold a missing value (NaN). -/
structure RawRecord where
  read_id : Option String
  run_id : Option String
  channel : Option Nat
  start_time : Option Rat
  duration : Option Rat
  sequence_length_template : Option Nat
  mean_qscore_template : Option Rat
  num_events : Option Nat
deriving DecidableEq

/-- A raw row survives `df.dropna()` iff every column is present; the
resulting fully populated row. -/
def RawRecord.toRecord? (r : RawRecord) : Option Record := do
  let a ← r.read_id
  let b ← r.run_id
  let c ← r.channel
  let d ← r.start_time
  let e ← r.duration
  let f ← r.sequence_length_template
  let g ← r.mean_qscore_template
  let h ← r.num_events
  pure ⟨a, b, c, d, e, f, g, h⟩

/-- `self.df.dropna(inplace=True)` (line 53): drop every row holding a
missing value in any column, keeping the remaining rows in order. -/
def dropna (rs : List RawRecord) : List Record :=
  rs.filterMap RawRecord.toRecord?

/-- The distinct elements of a list in order of first appearance (the key
set of a pandas groupby / `value_counts`). -/
def distinctKeys {α : Type} [DecidableEq α] (l : List α) : List α :=
  l.foldl (fun acc x => if x ∈ acc then acc else acc ++ [x]) []

/-- Number of records of run `rid` (one cell of
`self.df['run_id'].value_counts()`). -/
def countRun (rs : List Record) (rid : String) : Nat :=
  rs.countP (fun r => r.run_id == rid)

/-- The unsorted `run_id` count table: one `(run_id, count)` pair per
distinct `run_id`, keyed in order of first appearance. -/
def runCounts (rs : List Record) : List (String × Nat) :=
  (distinctKeys (rs.map Record.run_id)).map (fun k => (k, countRun rs k))

/-- Insert a pair into a list sorted by descending count, before the first
entry whose count is not larger (so that, among equal counts, an element
inserted later goes after the ones already present). -/
def insertDesc (x : String × Nat) : List (String × Nat) → List (String × Nat)
  | [] => [x]
  | y :: ys => if x.2 ≥ y.2 then x :: y :: ys else y :: insertDesc x ys

/-- Sort a count table by descending count.  Together with `insertDesc`
this is a stable sort: pandas `value_counts(sort=True)` only guarantees
the descending count order and leaves the order of equal counts
unspecified; the model resolves the tie by order of first appearance. -/
def sortCountsDesc : List (String × Nat) → List (String × Nat)
  | [] => []
  | x :: xs => insertDesc x (sortCountsDesc xs)

/-- `self.df['run_id'].value_counts(sort=True)` (line 56): the run counts
sorted by descending count. -/
def value_counts (rs : List Record) : List (String × Nat) :=
  sortCountsDesc (runCounts rs)

/-- The state built by `pycoQC.__init__`: the selected `run_id`, its
record count (`self.total_reads`) and the run-filtered table
(`self.df` after line 78). -/
structure RunTable where
  runid : String
  total_reads : Nat
  rows : List Record
deriving DecidableEq

/-- The default-selection branch of `__init__` (lines 58-68): take the
first — highest-count — entry of the sorted count table and filter the
rows to it.  `runid_counts.index[0]` on an empty series raises
`IndexError`. -/
def selectLargestRun (rs : List Record) : Except PyErr RunTable :=
  match value_counts rs with
  | [] => .error .indexError
  | p :: _ => .ok ⟨p.1, p.2, rs.filter (fun r => r.run_id == p.1)⟩

/-- `pycoQC.__init__` (lines 37-78) after the file has been parsed into
raw rows: drop rows with missing values, count rows per `run_id`, select
the run, and filter the table to that run.  The guard on line 58 is
`if not runid:` — Python **truthiness**, so both `runid=None` and a
supplied *empty-string* `runid` take the default-selection branch; only
a non-empty supplied id reaches `runid_counts.loc[runid]` (line 73),
which raises `KeyError` for an unknown id.
`self.df.set_index("read_id")` (line 78) keeps duplicate keys: pandas
`set_index` does not verify uniqueness by default, so the rows are kept
verbatim. -/
def pycoQC_init (raw : List RawRecord) (runid : Option String) :
    Except PyErr RunTable :=
  let rs := dropna raw
  match runid with
  | none => selectLargestRun rs
  | some rid =>
    if rid = "" then selectLargestRun rs
    else
      match (value_counts rs).find? (fun p => p.1 == rid) with
      | none => .error .keyError
      | some p => .ok ⟨rid, p.2, rs.filter (fun r => r.run_id == rid)⟩

/-! ### Basic facts about the construction -/

theorem selectLargestRun_ok_rows {rs : List Record} {t : RunTable}
    (h : selectLargestRun rs = .ok t) :
    t.rows = rs.filter (fun r => r.run_id == t.runid) := by
  unfold selectLargestRun at h
  cases hc : value_counts rs with
  | nil => simp [hc] at h
  | cons p ps =>
    simp only [hc] at h
    cases h
    rfl

theorem init_ok_rows {raw : List RawRecord} {o : Option String}
    {t : RunTable} (h : pycoQC_init raw o = .ok t) :
    t.rows = (dropna raw).filter (fun r => r.run_id == t.runid) := by
  unfold pycoQC_init at h
  cases o with
  | none => exact selectLargestRun_ok_rows h
  | some rid =>
    dsimp only at h
    by_cases hrid : rid = ""
    · rw [if_pos hrid] at h
      exact selectLargestRun_ok_rows h
    · rw [if_neg hrid] at h
      cases hf : (value_counts (dropna raw)).find? (fun p => p.1 == rid) with
      | none => simp [hf] at h
      | some p =>
        simp only [hf] at h
        cases h
        rfl

theorem mem_insertDesc {x y : String × Nat} {l : List (String × Nat)} :
    y ∈ insertDesc x l ↔ y = x ∨ y ∈ l := by
  induction l with
  | nil => simp [insertDesc]
  | cons z zs ih =>
    by_cases hz : x.2 ≥ z.2
    · simp [insertDesc, hz]
    · simp [insertDesc, hz, ih]
      tauto

theorem mem_sortCountsDesc {y : String × Nat} {l : List (String × Nat)} :
    y ∈ sortCountsDesc l ↔ y ∈ l := by
  induction l with
  | nil => simp [sortCountsDesc]
  | cons z zs ih => simp [sortCountsDesc, mem_insertDesc, ih]

theorem mem_foldl_keys {α : Type} [DecidableEq α] {a : α} :
    ∀ (l acc : List α), a ∈ acc ∨ a ∈ l →
      a ∈ l.foldl (fun acc x => if x ∈ acc then acc else acc ++ [x]) acc := by
  intro l
  induction l with
  | nil => intro acc h; simpa using h
  | cons x xs ih =>
    intro acc h
    simp only [List.foldl_cons]
    by_cases hx : x ∈ acc
    · simp only [if_pos hx]
      apply ih
      rcases h with h | h
      · exact Or.inl h
      · rcases List.mem_cons.mp h with rfl | h
        · exact Or.inl hx
        · exact Or.inr h
    · simp only [if_neg hx]
      apply ih
      rcases h with h | h
      · exact Or.inl (by simp [h])
      · rcases List.mem_cons.mp h with rfl | h
        · exact Or.inl (by simp)
        · exact Or.inr h

theorem of_mem_foldl_keys {α : Type} [DecidableEq α] {a : α} :
    ∀ (l acc : List α),
      a ∈ l.foldl (fun acc x => if x ∈ acc then acc else acc ++ [x]) acc →
      a ∈ acc ∨ a ∈ l := by
  intro l
  induction l with
  | nil => intro acc h; simpa using h
  | cons x xs ih =>
    intro acc h
    simp only [List.foldl_cons] at h
    by_cases hx : x ∈ acc
    · rw [if_pos hx] at h
      rcases ih _ h with h | h
      · exact Or.inl h
      · exact Or.inr (List.mem_cons_of_mem _ h)
    · rw [if_neg hx] at h
      rcases ih _ h with h | h
      · rcases List.mem_append.mp h with h | h
        · exact Or.inl h
        · simp only [List.mem_singleton] at h
          exact Or.inr (by simp [h])
      · exact Or.inr (List.mem_cons_of_mem _ h)

theorem mem_distinctKeys {α : Type} [DecidableEq α] {a : α} {l : List α} :
    a ∈ distinctKeys l ↔ a ∈ l := by
  constructor
  · intro h
    rcases of_mem_foldl_keys l [] h with h | h
    · simp at h
    · exact h
  · intro h
    exact mem_foldl_keys l [] (Or.inr h)

/-! ### C7 — the RunTable holds exactly the selected run's records -/

/-- C7: after construction the RunTable contains exactly the fully
populated records whose `run_id` equals the selected id (set equality),
the retained rows keep their original order (`Sublist` of the
NaN-dropped table), and every retained row stems from a raw row with no
missing field. -/
theorem run_filter_exact (raw : List RawRecord) (o : Option String)
    (t : RunTable) (h : pycoQC_init raw o = .ok t) :
    (∀ r : Record, r ∈ t.rows ↔ (r ∈ dropna raw ∧ r.run_id = t.runid))
    ∧ t.rows.Sublist (dropna raw)
    ∧ ∀ r ∈ t.rows, ∃ q ∈ raw, q.toRecord? = some r := by
  have hrows := init_ok_rows h
  refine ⟨?_, ?_, ?_⟩
  · intro r
    rw [hrows]
    simp [List.mem_filter]
  · rw [hrows]
    exact List.filter_sublist _
  · intro r hr
    rw [hrows] at hr
    have hr' : r ∈ dropna raw := List.mem_of_mem_filter hr
    unfold dropna at hr'
    rcases List.mem_filterMap.mp hr' with ⟨q, hq, hq'⟩
    exact ⟨q, hq, hq'⟩

def exRecA : Record := ⟨"r1", "A", 3, 900, 900, 100, 10, 50⟩

def exRawA : RawRecord :=
  ⟨some "r1", some "A", some 3, some 900, some 900, some 100, some 10, some 50⟩

def exTableA : RunTable := ⟨"A", 1, [exRecA]⟩

/-- Witness for C7 at a concrete one-row input. -/
theorem run_filter_exact_witness :
    exTableA.rows.Sublist (dropna [exRawA])
    ∧ (exRecA ∈ exTableA.rows ↔
        (exRecA ∈ dropna [exRawA] ∧ exRecA.run_id = exTableA.runid)) :=
  ⟨(run_filter_exact [exRawA] none exTableA rfl).2.1,
   (run_filter_exact [exRawA] none exTableA rfl).1 exRecA⟩

/-! ### C8 — unknown supplied run identifier fails -/

/-- Counterexample to C8 as stated: the empty string is a supplied run
identifier that is not — and can never be — among the grouped `run_id`
counts, yet construction **succeeds**: `if not runid:` (line 58) treats
the empty string as falsy, so the program default-selects the largest
run instead of looking the id up, and returns a RunTable. -/
theorem empty_runid_truthiness_counterexample :
    pycoQC_init [exRawA] (some "") = .ok exTableA
    ∧ ("" ∉ (dropna [exRawA]).map Record.run_id) :=
  ⟨rfl, by decide⟩

/-- C8 amended: if the caller supplies a **non-empty** run identifier
that labels no record of the NaN-dropped table, construction fails
(`runid_counts.loc[runid]` raises `KeyError`, the modelled
`UnknownRunIdError`) and no RunTable is produced.  (A supplied empty
string is falsy under the `if not runid:` guard and triggers default
run selection instead — see the counterexample.) -/
theorem unknown_runid_fails (raw : List RawRecord) (rid : String)
    (hne : rid ≠ "")
    (h : ∀ r ∈ dropna raw, r.run_id ≠ rid) :
    pycoQC_init raw (some rid) = .error .keyError := by
  have hfind : (value_counts (dropna raw)).find? (fun p => p.1 == rid) = none := by
    apply List.find?_eq_none.mpr
    intro p hp
    have hp' : p ∈ runCounts (dropna raw) := mem_sortCountsDesc.mp hp
    unfold runCounts at hp'
    rcases List.mem_map.mp hp' with ⟨k, hk, rfl⟩
    have hk' : k ∈ (dropna raw).map Record.run_id := mem_distinctKeys.mp hk
    rcases List.mem_map.mp hk' with ⟨r, hr, rfl⟩
    simpa using h r hr
  unfold pycoQC_init
  simp [hfind, hne]

/-- Witness for C8 amended: a one-run table queried with an absent,
non-empty run id. -/
theorem unknown_runid_fails_witness :
    pycoQC_init [exRawA] (some "B") = .error .keyError :=
  unknown_runid_fails [exRawA] "B" (by decide) (by decide)

/-! ### C10 — empty table plus default run selection fails -/

/-- C10: if every raw row is dropped by `dropna`, construction with no
supplied run identifier fails (`runid_counts.index[0]` on the empty
count series raises `IndexError`) instead of returning an empty
RunTable. -/
theorem empty_input_default_selection_fails (raw : List RawRecord)
    (h : dropna raw = []) :
    pycoQC_init raw none = .error .indexError := by
  unfold pycoQC_init
  rw [h]
  rfl

def exRawEmpty : RawRecord :=
  ⟨none, none, none, none, none, none, none, none⟩

/-- Witness for C10: a file whose single row has all fields missing. -/
theorem empty_input_default_selection_fails_witness :
    pycoQC_init [exRawEmpty] none = .error .indexError :=
  empty_input_default_selection_fails [exRawEmpty] rfl

/-! ### C5 — default run selection picks the largest run -/

/-- The largest count in a count table (`0` for the empty table). -/
def maxCount (l : List (String × Nat)) : Nat :=
  l.foldr (fun p m => max p.2 m) 0

theorem le_maxCount {p : String × Nat} {l : List (String × Nat)}
    (hp : p ∈ l) : p.2 ≤ maxCount l := by
  induction l with
  | nil => simp at hp
  | cons z zs ih =>
    rcases List.mem_cons.mp hp with rfl | hp
    · exact le_max_left _ _
    · exact le_trans (ih hp) (le_max_right _ _)

theorem insertDesc_length (x : String × Nat) (l : List (String × Nat)) :
    (insertDesc x l).length = l.length + 1 := by
  induction l with
  | nil => rfl
  | cons z zs ih =>
    by_cases hz : x.2 ≥ z.2
    · simp [insertDesc, hz]
    · simp [insertDesc, hz, ih]

theorem sortCountsDesc_length (l : List (String × Nat)) :
    (sortCountsDesc l).length = l.length := by
  induction l with
  | nil => rfl
  | cons z zs ih => simp [sortCountsDesc, insertDesc_length, ih]

/-- The head of the descending stable sort is the first entry of the
original table carrying the maximal count. -/
theorem sortCountsDesc_head (l : List (String × Nat)) :
    (sortCountsDesc l).head? = l.find? (fun p => p.2 == maxCount l) := by
  induction l with
  | nil => rfl
  | cons x xs ih =>
    have hmax : maxCount (x :: xs) = max x.2 (maxCount xs) := rfl
    cases hs : sortCountsDesc xs with
    | nil =>
      have hxs : xs = [] := by
        have := sortCountsDesc_length xs
        rw [hs] at this
        exact List.length_eq_zero.mp this.symm
      subst hxs
      simp [sortCountsDesc, insertDesc, maxCount]
    | cons h t =>
      have hh : h.2 = maxCount xs := by
        have := ih
        rw [hs] at this
        have hfind : xs.find? (fun p => p.2 == maxCount xs) = some h := this.symm
        have hb := List.find?_some hfind
        exact eq_of_beq hb
      by_cases hx : x.2 ≥ h.2
      · have hx' : x.2 = max x.2 (maxCount xs) := by
          rw [← hh]
          exact (max_eq_left hx).symm
        simp only [sortCountsDesc, hs, insertDesc, if_pos hx]
        rw [List.find?_cons_of_pos]
        · simp [hmax, ← hx']
        · simp [hmax, ← hx']
      · have hx2 : x.2 < maxCount xs := by
          rw [← hh]
          exact lt_of_not_ge hx
        have hmax' : maxCount (x :: xs) = maxCount xs := by
          rw [hmax]
          exact max_eq_right (le_of_lt hx2)
        simp only [sortCountsDesc, hs, insertDesc, if_neg hx]
        rw [List.find?_cons_of_neg]
        · rw [List.head?_cons, hmax', ← ih, hs, List.head?_cons]
        · simp [hmax']
          omega

theorem countRun_eq_zero_of_not_mem {rs : List Record} {rid : String}
    (h : ∀ r ∈ rs, r.run_id ≠ rid) : countRun rs rid = 0 := by
  unfold countRun
  apply List.countP_eq_zero.mpr
  intro r hr
  simpa using h r hr

/-- C5: with no supplied run identifier, construction selects a run of
maximal record count, sets `total_reads` to that run's count, and the
selected id is the first (in order of first appearance in the file) of
the distinct run ids whose count attains the maximum — so ties go to the
first-seen id.  (pandas leaves the order of equal counts in
`value_counts(sort=True)` unspecified; the embedding resolves the tie by
first appearance, cf. `sortCountsDesc`.) -/
theorem default_run_selection (raw : List RawRecord) (t : RunTable)
    (h : pycoQC_init raw none = .ok t) :
    t.total_reads = countRun (dropna raw) t.runid
    ∧ (∀ rid : String, countRun (dropna raw) rid ≤ countRun (dropna raw) t.runid)
    ∧ (distinctKeys ((dropna raw).map Record.run_id)).find?
        (fun k => countRun (dropna raw) k == countRun (dropna raw) t.runid)
        = some t.runid := by
  unfold pycoQC_init selectLargestRun at h
  set rs := dropna raw with hrs
  cases hc : value_counts rs with
  | nil => simp [hc] at h
  | cons p ps =>
    simp only [hc] at h
    cases h
    dsimp only
    -- The head of the sorted count table is the first max-count key.
    have hhead : (value_counts rs).head? =
        (runCounts rs).find? (fun q => q.2 == maxCount (runCounts rs)) :=
      sortCountsDesc_head (runCounts rs)
    rw [hc] at hhead
    simp only [List.head?_cons] at hhead
    have hfind : (runCounts rs).find? (fun q => q.2 == maxCount (runCounts rs))
        = some p := hhead.symm
    set m := maxCount (runCounts rs) with hm
    -- Transport the `find?` through the `map` building `runCounts`.
    rw [show runCounts rs
          = (distinctKeys (rs.map Record.run_id)).map
              (fun k => (k, countRun rs k)) from rfl,
        List.find?_map] at hfind
    cases hk : (distinctKeys (rs.map Record.run_id)).find?
        ((fun q : String × Nat => q.2 == m) ∘ (fun k => (k, countRun rs k))) with
    | none => rw [hk] at hfind; simp at hfind
    | some k =>
      rw [hk] at hfind
      simp only [Option.map_some'] at hfind
      have hpk : (k, countRun rs k) = p := by
        simpa using hfind
      have hcount : countRun rs p.1 = m := by
        have hb := List.find?_some hk
        simp only [Function.comp] at hb
        have h2 : countRun rs k = m := eq_of_beq hb
        rw [← hpk]
        exact h2
      refine ⟨?_, ?_, ?_⟩
      · rw [← hpk]
      · intro rid
        by_cases hmem : rid ∈ rs.map Record.run_id
        · have hmem' : rid ∈ distinctKeys (rs.map Record.run_id) :=
            mem_distinctKeys.mpr hmem
          have hpair : (rid, countRun rs rid) ∈ runCounts rs := by
            unfold runCounts
            exact List.mem_map.mpr ⟨rid, hmem', rfl⟩
          have hle := le_maxCount hpair
          rw [← hm] at hle
          simpa [hcount] using hle
        · have h0 : countRun rs rid = 0 := by
            apply countRun_eq_zero_of_not_mem
            intro r hr hrid
            exact hmem (List.mem_map.mpr ⟨r, hr, hrid⟩)
          simp [h0]
      · rw [hcount]
        have hk' : (distinctKeys (rs.map Record.run_id)).find?
            (fun k' => countRun rs k' == m) = some k := hk
        rw [hk']
        have hk1 : k = p.1 := by rw [← hpk]
        rw [hk1]

def exRecB : Record := ⟨"r2", "B", 5, 0, 0, 200, 11, 60⟩

def exRawB : RawRecord :=
  ⟨some "r2", some "B", some 5, some 0, some 0, some 200, some 11, some 60⟩

/-- The run-selection example table: 10 rows of run "A", then 30 rows of
run "B". -/
def exRaw5 : List RawRecord :=
  List.replicate 10 exRawA ++ List.replicate 30 exRawB

def exTable5 : RunTable := ⟨"B", 30, List.replicate 30 exRecB⟩

set_option maxRecDepth 8000 in
/-- Witness for C5 at the spec's example: counts {"A": 10, "B": 30} with
no explicit run id select "B" with `total_reads = 30`. -/
theorem default_run_selection_witness :
    pycoQC_init exRaw5 none = .ok exTable5
    ∧ exTable5.runid = "B" ∧ exTable5.total_reads = 30
    ∧ exTable5.total_reads = countRun (dropna exRaw5) exTable5.runid
    ∧ countRun (dropna exRaw5) "A" ≤ countRun (dropna exRaw5) exTable5.runid :=
  ⟨rfl, rfl, rfl,
   (default_run_selection exRaw5 exTable5 rfl).1,
   (default_run_selection exRaw5 exTable5 rfl).2.1 "A"⟩

/-! ### C3 — duplicate read ids are accepted, not rejected -/

def exRawDup1 : RawRecord :=
  ⟨some "x", some "A", some 1, some 0, some 0, some 100, some 10, some 50⟩

def exRawDup2 : RawRecord :=
  ⟨some "x", some "A", some 2, some 0, some 0, some 200, some 10, some 60⟩

def exTableDup : RunTable :=
  ⟨"A", 2, [⟨"x", "A", 1, 0, 0, 100, 10, 50⟩, ⟨"x", "A", 2, 0, 0, 200, 10, 60⟩]⟩

/-- Counterexample to C3 as stated: a table whose selected run holds two
records with the same `read_id` is accepted — construction returns a
RunTable (no `DuplicateKeyError`), keeping both duplicate rows. -/
theorem duplicate_read_ids_accepted :
    pycoQC_init [exRawDup1, exRawDup2] none = .ok exTableDup
    ∧ ¬ (exTableDup.rows.map Record.read_id).Nodup
    ∧ exTableDup.rows.length = 2 := by
  refine ⟨rfl, by decide, rfl⟩

/-- C3 amended: construction performs no uniqueness check on `read_id`:
every `read_id` occurs in the RunTable exactly as often as it occurs in
the NaN-dropped rows of the selected run — duplicates are neither
rejected nor deduplicated. -/
theorem duplicate_read_ids_retained (raw : List RawRecord)
    (o : Option String) (t : RunTable) (h : pycoQC_init raw o = .ok t) :
    ∀ rid : String, t.rows.countP (fun r => r.read_id == rid)
      = ((dropna raw).filter (fun r => r.run_id == t.runid)).countP
          (fun r => r.read_id == rid) := by
  intro rid
  rw [init_ok_rows h]

/-- Witness for C3 amended: the duplicate pair above is retained with
multiplicity 2. -/
theorem duplicate_read_ids_retained_witness :
    exTableDup.rows.countP (fun r => r.read_id == "x")
      = ((dropna [exRawDup1, exRawDup2]).filter
          (fun r => r.run_id == exTableDup.runid)).countP
          (fun r => r.read_id == "x")
    ∧ exTableDup.rows.countP (fun r => r.read_id == "x") = 2 :=
  ⟨duplicate_read_ids_retained [exRawDup1, exRawDup2] none exTableDup
      rfl "x",
   by decide⟩

/-! ### Time-windowed aggregation (`output_over_time`, `quality_over_time`) -/

/-- `end_time = (start_time + duration) / 3600` (lines 189, 222), in
hours. -/
def endTime (r : Record) : Rat :=
  (r.start_time + r.duration) / 3600

/-- Python `max(...)` over a sequence of numbers: `ValueError` on an
empty sequence. -/
def pyMax : List Rat → Except PyErr Rat
  | [] => .error .valueError
  | x :: xs => .ok (xs.foldl max x)

/-- Length of `np.arange(0, M, w)` for `w > 0`: the number of multiples
`k*w` with `k*w < M`, i.e. `⌈M/w⌉` (clamped at `0`). -/
def nWindows (M w : Rat) : Nat :=
  (⌈M / w⌉).toNat

/-- `np.arange(0, M, w)` (lines 193, 226): the window start times
`0, w, 2w, …`, strictly below `M`. -/
def windowStarts (M w : Rat) : List Rat :=
  (List.range (nWindows M w)).map (fun k : Nat => (k : Rat) * w)

/-- Membership of a record in the half-open window `[t, t+w)` (the slice
condition `(end_time >= t) & (end_time < t+w)`, lines 194, 227). -/
def inWindow (w t : Rat) (r : Record) : Bool :=
  decide (t ≤ endTime r) && decide (endTime r < t + w)

/-- The records of one window (the slice `sdf`, lines 194, 227). -/
def windowRecords (rs : List Record) (w t : Rat) : List Record :=
  rs.filter (inWindow w t)

/-- `output_over_time` (lines 172-195), data part: per window the record
count and the sums of `sequence_length_template` and `num_events`.
The source body reads the module-global name `n` (`n.df`, lines 188-189),
not the receiver `self`; `globalN` models that ambient binding and
`selfDf` the receiver's table, which the body never uses — mirroring the
source. -/
def output_over_time_src (globalN selfDf : List Record) (w : Rat) :
    Except PyErr (List (Rat × Nat × Nat × Nat)) :=
  match pyMax (globalN.map endTime) with
  | .error e => .error e
  | .ok M =>
    .ok ((windowStarts M w).map (fun t =>
      (t, (windowRecords globalN w t).length,
        ((windowRecords globalN w t).map Record.sequence_length_template).sum,
        ((windowRecords globalN w t).map Record.num_events).sum)))

theorem le_foldl_max (as : List Rat) : ∀ a : Rat, a ≤ as.foldl max a := by
  induction as with
  | nil => intro a; exact le_refl a
  | cons b bs ih =>
    intro a
    calc a ≤ max a b := le_max_left a b
    _ ≤ bs.foldl max (max a b) := ih (max a b)

theorem mem_le_foldl_max (as : List Rat) :
    ∀ (a x : Rat), x ∈ as → x ≤ as.foldl max a := by
  induction as with
  | nil => intro a x hx; simp at hx
  | cons b bs ih =>
    intro a x hx
    rcases List.mem_cons.mp hx with rfl | hx
    · calc x ≤ max a x := le_max_right a x
      _ ≤ bs.foldl max (max a x) := le_foldl_max bs (max a x)
    · exact ih (max a b) x hx

theorem pyMax_is_ub {l : List Rat} {M x : Rat}
    (hM : pyMax l = .ok M) (hx : x ∈ l) : x ≤ M := by
  cases l with
  | nil => simp [pyMax] at hM
  | cons a as =>
    simp only [pyMax, Except.ok.injEq] at hM
    subst hM
    rcases List.mem_cons.mp hx with rfl | hx
    · exact le_foldl_max as x
    · exact mem_le_foldl_max as a x hx

/-- A fixed end time `e` lies in exactly one of the windows
`[k*w, (k+1)*w)`, `k < n`, iff `0 ≤ e < w*n`; otherwise in none. -/
theorem countP_windows (r : Record) (w : Rat) (hw : 0 < w) (n : Nat) :
    ((List.range n).map (fun k : Nat => (k : Rat) * w)).countP
        (fun t => inWindow w t r)
      = if 0 ≤ endTime r ∧ endTime r < w * n then 1 else 0 := by
  induction n with
  | zero =>
    have hno : ¬ (0 ≤ endTime r ∧ endTime r < 0) := by
      rintro ⟨h0, h1⟩
      exact absurd (lt_of_le_of_lt h0 h1) (lt_irrefl 0)
    simp [hno]
  | succ n ih =>
    rw [List.range_succ, List.map_append, List.countP_append, ih]
    have hcast : ((n : Rat) + 1) * w = (n : Rat) * w + w := by ring
    simp only [List.map_cons, List.map_nil, List.countP_cons, List.countP_nil,
      Nat.zero_add]
    have hmulsucc : (((n : Nat) + 1 : Nat) : Rat) * w = (n : Rat) * w + w := by
      push_cast
      ring
    rcases lt_or_le (endTime r) ((n : Rat) * w) with hlt | hge
    · have hwin : inWindow w ((n : Rat) * w) r = false := by
        unfold inWindow
        simp only [Bool.and_eq_false_iff, decide_eq_false_iff_not, not_le]
        exact Or.inl hlt
      rw [hwin]
      have hiff : (0 ≤ endTime r ∧ endTime r < w * n) ↔
          (0 ≤ endTime r ∧ endTime r < w * ((n : Nat) + 1 : Nat)) := by
        constructor
        · rintro ⟨h0, h1⟩
          refine ⟨h0, ?_⟩
          push_cast
          nlinarith
        · rintro ⟨h0, _⟩
          refine ⟨h0, ?_⟩
          rw [mul_comm]
          exact hlt
      simp only [hiff]
      split <;> simp
    · rcases lt_or_le (endTime r) ((n : Rat) * w + w) with hlt2 | hge2
      · have hwin : inWindow w ((n : Rat) * w) r = true := by
          unfold inWindow
          simp only [Bool.and_eq_true, decide_eq_true_eq]
          exact ⟨hge, hlt2⟩
        rw [hwin]
        have hn0 : (0 : Rat) ≤ (n : Rat) * w := by positivity
        have hcond1 : ¬ (0 ≤ endTime r ∧ endTime r < w * n) := by
          rintro ⟨_, h1⟩
          rw [mul_comm] at h1
          exact absurd h1 (not_lt.mpr hge)
        have hcond2 : 0 ≤ endTime r ∧ endTime r < w * ((n : Nat) + 1 : Nat) := by
          refine ⟨le_trans hn0 hge, ?_⟩
          rw [mul_comm, hmulsucc]
          exact hlt2
        rw [if_neg hcond1, if_pos hcond2]
        simp
      · have hwin : inWindow w ((n : Rat) * w) r = false := by
          unfold inWindow
          simp only [Bool.and_eq_false_iff, decide_eq_false_iff_not, not_lt]
          exact Or.inr hge2
        rw [hwin]
        have hcond1 : ¬ (0 ≤ endTime r ∧ endTime r < w * n) := by
          rintro ⟨_, h1⟩
          rw [mul_comm] at h1
          nlinarith
        have hcond2 : ¬ (0 ≤ endTime r ∧ endTime r < w * ((n : Nat) + 1 : Nat)) := by
          rintro ⟨_, h1⟩
          rw [mul_comm, hmulsucc] at h1
          exact absurd h1 (not_lt.mpr hge2)
        rw [if_neg hcond1, if_neg hcond2]
        simp

/-- C2 counterexample data: one read finishing exactly at
`end_time = 1/2` h (`start_time = 900` s, `duration = 900` s). -/
def exRecBoundary : Record := ⟨"r1", "A", 1, 900, 900, 100, 10, 50⟩

theorem endTime_exRecBoundary : endTime exRecBoundary = 1/2 := by
  norm_num [endTime, exRecBoundary]

theorem pyMax_exRecBoundary :
    pyMax ([exRecBoundary].map endTime) = .ok (1/2) := by
  simp [pyMax, endTime_exRecBoundary]

theorem nWindows_half_quarter : nWindows (1/2) (1/4) = 2 := by
  unfold nWindows
  have h : ⌈(1/2 : Rat) / (1/4)⌉ = 2 := by norm_num
  rw [h]
  decide

theorem windowStarts_half_quarter :
    windowStarts (1/2) (1/4) = [0 * (1/4), 1 * (1/4)] := by
  unfold windowStarts
  rw [nWindows_half_quarter]
  simp [List.range_succ]

/-- Counterexample to C2 as stated: with window size `1/4` h and maximum
`end_time = 1/2` h (an exact multiple of the window size), the windows
are `[0, 1/4)` and `[1/4, 1/2)` and the record attaining the maximum
falls in none of them — the union of the windows' record sets misses it,
so the windows do not partition the table. -/
theorem window_partition_counterexample :
    pyMax ([exRecBoundary].map endTime) = .ok (1/2)
    ∧ (windowStarts (1/2) (1/4)).countP
        (fun t => inWindow (1/4) t exRecBoundary) = 0
    ∧ exRecBoundary ∈ [exRecBoundary]
    ∧ output_over_time_src [exRecBoundary] [exRecBoundary] (1/4)
        = .ok [(0, 0, 0, 0), (1/4, 0, 0, 0)] := by
  have hwin0 : inWindow (1/4) (0 * (1/4)) exRecBoundary = false := by
    simp only [inWindow, endTime_exRecBoundary]
    norm_num
  have hwin1 : inWindow (1/4) (1 * (1/4)) exRecBoundary = false := by
    simp only [inWindow, endTime_exRecBoundary]
    norm_num
  refine ⟨pyMax_exRecBoundary, ?_, by simp, ?_⟩
  · rw [windowStarts_half_quarter]
    simp only [List.countP_cons, List.countP_nil, hwin0, hwin1]
    simp
  · unfold output_over_time_src
    rw [pyMax_exRecBoundary]
    simp only [windowStarts_half_quarter, List.map_cons, List.map_nil,
      windowRecords, List.filter, hwin0, hwin1]
    norm_num

/-- C2 amended: for `w > 0` and non-negative end times, every record
lies in **at most** one window, and in **exactly** one — so the windows
partition the record set — whenever the maximum `end_time` is *not* an
exact multiple of the window size (`M ≠ w * nWindows M w`); otherwise
the records attaining the maximum fall into no window (see the
counterexample). -/
theorem window_partition_amended (rs : List Record) (w M : Rat)
    (hw : 0 < w) (hM : pyMax (rs.map endTime) = .ok M)
    (h0 : ∀ r ∈ rs, 0 ≤ endTime r)
    (hnd : M ≠ w * (nWindows M w : Rat)) :
    ∀ r ∈ rs, (windowStarts M w).countP (fun t => inWindow w t r) = 1 := by
  intro r hr
  have he : endTime r ≤ M := pyMax_is_ub hM (List.mem_map.mpr ⟨r, hr, rfl⟩)
  have he0 : 0 ≤ endTime r := h0 r hr
  have hM0 : (0 : Rat) ≤ M := le_trans he0 he
  have hceil0 : (0 : Int) ≤ ⌈M / w⌉ := by
    apply Int.ceil_nonneg
    positivity
  have hcast : ((nWindows M w : Nat) : Rat) = ((⌈M / w⌉ : Int) : Rat) := by
    unfold nWindows
    exact_mod_cast congrArg (fun z : Int => (z : Rat))
      (Int.toNat_of_nonneg hceil0)
  have hub : M ≤ w * (nWindows M w : Rat) := by
    rw [hcast]
    have h1 : M / w ≤ ((⌈M / w⌉ : Int) : Rat) := Int.le_ceil (M / w)
    calc M = w * (M / w) := by field_simp
    _ ≤ w * ((⌈M / w⌉ : Int) : Rat) := by
        apply mul_le_mul_of_nonneg_left h1 (le_of_lt hw)
  have hlt : M < w * (nWindows M w : Rat) := lt_of_le_of_ne hub hnd
  unfold windowStarts
  rw [countP_windows r w hw (nWindows M w)]
  rw [if_pos ⟨he0, lt_of_le_of_lt he hlt⟩]

/-- C2 amended witness data: one read finishing at `end_time = 1/3` h
(`start_time = 1200` s, `duration = 0` s). -/
def exRecThird : Record := ⟨"r1", "A", 1, 1200, 0, 100, 10, 50⟩

theorem endTime_exRecThird : endTime exRecThird = 1/3 := by
  norm_num [endTime, exRecThird]

theorem nWindows_third_quarter : nWindows (1/3) (1/4) = 2 := by
  unfold nWindows
  have h : ⌈(1/3 : Rat) / (1/4)⌉ = 2 := by
    rw [Int.ceil_eq_iff]
    norm_num
  rw [h]
  decide

/-- Witness for C2 amended: with `w = 1/4` and maximum `end_time = 1/3`
(not a multiple of `1/4`), the single record lies in exactly one
window. -/
theorem window_partition_amended_witness :
    (windowStarts (1/3) (1/4)).countP
      (fun t => inWindow (1/4) t exRecThird) = 1 :=
  window_partition_amended [exRecThird] (1/4) (1/3) (by norm_num)
    (by simp [pyMax, endTime_exRecThird])
    (by
      intro r hr
      rcases List.mem_singleton.mp hr with rfl
      rw [endTime_exRecThird]
      norm_num)
    (by rw [nWindows_third_quarter]; norm_num)
    exRecThird (by simp)

/-! ### C9 — `output_over_time` reads the ambient global `n` -/

/-- Two candidate ambient tables: the receiver's own table … -/
def exSelfTable : List Record := [⟨"a1", "A", 1, 450, 0, 100, 10, 7⟩]

/-- A different table, bound to the global `n` in the failing run. -/
def exOtherTable : List Record :=
  [⟨"a1", "A", 1, 450, 0, 100, 10, 7⟩, ⟨"a2", "A", 2, 450, 0, 250, 9, 8⟩]

/-- C9 fails on the code: `output_over_time` draws its data from the
ambient global binding `n`, not from the receiver.  With the same
receiver and the same arguments, two different ambient bindings give two
different results, and conversely the result is insensitive to the
receiver. -/
theorem output_over_time_reads_ambient_state :
    output_over_time_src exSelfTable exSelfTable (1/4)
      = .ok [(0, 1, 100, 7)]
    ∧ output_over_time_src exOtherTable exSelfTable (1/4)
      = .ok [(0, 2, 350, 15)]
    ∧ ((0 : Rat), 1, 100, 7) ≠ ((0 : Rat), 2, 350, 15)
    ∧ output_over_time_src exOtherTable exSelfTable (1/4)
      = output_over_time_src exOtherTable exOtherTable (1/4) := by
  have he1 : endTime ⟨"a1", "A", 1, 450, 0, 100, 10, 7⟩ = 1/8 := by
    norm_num [endTime]
  have he2 : endTime ⟨"a2", "A", 2, 450, 0, 250, 9, 8⟩ = 1/8 := by
    norm_num [endTime]
  have hn : nWindows (1/8) (1/4) = 1 := by
    unfold nWindows
    have h : ⌈(1/8 : Rat) / (1/4)⌉ = 1 := by
      rw [Int.ceil_eq_iff]
      norm_num
    rw [h]
    decide
  have hws : windowStarts (1/8) (1/4) = [0 * (1/4)] := by
    unfold windowStarts
    rw [hn]
    simp [List.range_succ]
  have hwin1 : inWindow (1/4) (0 * (1/4)) ⟨"a1", "A", 1, 450, 0, 100, 10, 7⟩
      = true := by
    simp only [inWindow, he1]
    norm_num
  have hwin2 : inWindow (1/4) (0 * (1/4)) ⟨"a2", "A", 2, 450, 0, 250, 9, 8⟩
      = true := by
    simp only [inWindow, he2]
    norm_num
  have hmax1 : pyMax (exSelfTable.map endTime) = .ok (1/8) := by
    simp [exSelfTable, pyMax, he1]
  have hmax2 : pyMax (exOtherTable.map endTime) = .ok (1/8) := by
    simp [exOtherTable, pyMax, he1, he2]
  refine ⟨?_, ?_, by decide, rfl⟩
  · unfold output_over_time_src
    rw [hmax1]
    simp only [hws, List.map_cons, List.map_nil, windowRecords, exSelfTable,
      List.filter, hwin1]
    norm_num
  · unfold output_over_time_src
    rw [hmax2]
    simp only [hws, List.map_cons, List.map_nil, windowRecords, exOtherTable,
      List.filter, hwin1, hwin2]
    norm_num

/-! ### Value-range aggregation (histograms) -/

/-- Length of `np.arange(start, stop, step)` for `step > 0`:
`⌈(stop-start)/step⌉` clamped at `0`. -/
def arangeLen (start stop step : Rat) : Nat :=
  (⌈(stop - start) / step⌉).toNat

/-- `np.arange(start, stop, step)` (lines 160, 270): equally spaced
values from `start` (inclusive) to `stop` (exclusive). -/
def arange (start stop step : Rat) : List Rat :=
  (List.range (arangeLen start stop step)).map
    (fun k : Nat => start + (k : Rat) * step)

/-- `np.histogram` bin counts for the given edges (what
`plot.hist(bins=edges)` tabulates): every bin is the half-open interval
between consecutive edges, except the very last bin, which also includes
its right edge. -/
def histCounts (vs : List Rat) : List Rat → List Nat
  | e0 :: e1 :: [] =>
    [vs.countP (fun v => decide (e0 ≤ v) && decide (v ≤ e1))]
  | e0 :: e1 :: e2 :: rest =>
    vs.countP (fun v => decide (e0 ≤ v) && decide (v < e1))
      :: histCounts vs (e1 :: e2 :: rest)
  | _ => []

/-- `mean_qual_distribution` (lines 142-161), data part: histogram of
`mean_qscore_template` over `np.arange(0, 40, win_size)`. -/
def mean_qual_hist (rs : List Record) (w : Rat) : List Nat :=
  histCounts (rs.map Record.mean_qscore_template) (arange 0 40 w)

/-- `reads_len_distribution` with `xlog=False` (lines 270, 274), data
part: histogram of `sequence_length_template` over
`np.arange(xmin, xmax, win_size)`. -/
def reads_len_hist_lin (rs : List Record) (xmin xmax w : Rat) : List Nat :=
  histCounts (rs.map (fun r => (r.sequence_length_template : Rat)))
    (arange xmin xmax w)

theorem countP_interval_split (vs : List Rat) (a b c : Rat)
    (hab : a ≤ b) (hbc : b ≤ c) :
    vs.countP (fun v => decide (a ≤ v) && decide (v < b))
      + vs.countP (fun v => decide (b ≤ v) && decide (v ≤ c))
      = vs.countP (fun v => decide (a ≤ v) && decide (v ≤ c)) := by
  induction vs with
  | nil => simp
  | cons v vs ih =>
    simp only [List.countP_cons]
    by_cases h1 : a ≤ v
    · by_cases h2 : v < b
      · have h3 : ¬ b ≤ v := not_le.mpr h2
        have h4 : v ≤ c := le_trans (le_of_lt h2) hbc
        simp [h1, h2, h3, h4]
        omega
      · have h3 : b ≤ v := not_lt.mp h2
        by_cases h4 : v ≤ c
        · simp [h1, h2, h3, h4]
          omega
        · simp [h1, h2, h3, h4]
          omega
    · have h3 : ¬ b ≤ v := fun hb => h1 (le_trans hab hb)
      simp [h1, h3]
      omega

/-- Sum of the histogram counts: with nondecreasing edges, it is the
number of values between the first edge (inclusive) and the **last**
edge (inclusive, because the last bin is closed). -/
theorem histCounts_sum (vs : List Rat) (e0 e1 : Rat) (rest : List Rat)
    (hp : (e0 :: e1 :: rest).Pairwise (· ≤ ·)) :
    (histCounts vs (e0 :: e1 :: rest)).sum
      = vs.countP (fun v => decide (e0 ≤ v)
          && decide (v ≤ (e1 :: rest).getLast (List.cons_ne_nil e1 rest))) := by
  induction rest generalizing e0 e1 with
  | nil => simp [histCounts]
  | cons e2 rest ih =>
    have hp' : (e1 :: e2 :: rest).Pairwise (· ≤ ·) := hp.of_cons
    have hab : e0 ≤ e1 := (List.pairwise_cons.mp hp).1 e1 (by simp)
    have hbc : e1 ≤ (e2 :: rest).getLast (List.cons_ne_nil e2 rest) := by
      have hmem : (e2 :: rest).getLast (List.cons_ne_nil e2 rest) ∈ e2 :: rest :=
        List.getLast_mem (List.cons_ne_nil e2 rest)
      exact (List.pairwise_cons.mp hp').1 _ hmem
    have hgl : (e1 :: e2 :: rest).getLast (List.cons_ne_nil e1 (e2 :: rest))
        = (e2 :: rest).getLast (List.cons_ne_nil e2 rest) :=
      List.getLast_cons (List.cons_ne_nil e2 rest)
    rw [show histCounts vs (e0 :: e1 :: e2 :: rest)
        = vs.countP (fun v => decide (e0 ≤ v) && decide (v < e1))
            :: histCounts vs (e1 :: e2 :: rest) from rfl]
    rw [List.sum_cons, ih e1 e2 hp', hgl]
    exact countP_interval_split vs e0 e1 _ hab hbc

theorem arange_pairwise (start stop step : Rat) (hs : 0 ≤ step) :
    (arange start stop step).Pairwise (· ≤ ·) := by
  unfold arange
  rw [List.pairwise_map]
  refine (List.pairwise_lt_range _).imp ?_
  intro i j hij
  have hij' : (i : Rat) ≤ (j : Rat) := by exact_mod_cast le_of_lt hij
  have := mul_le_mul_of_nonneg_right hij' hs
  linarith

/-- The largest `np.arange(xmin, xmax, w)` edge:
`xmin + (⌈(xmax-xmin)/w⌉ - 1) * w`, which stays strictly below
`xmax`. -/
def lastEdgeLin (xmin xmax w : Rat) : Rat :=
  xmin + ((arangeLen xmin xmax w - 1 : Nat) : Rat) * w

def exRec35 : Record := ⟨"r1", "A", 1, 0, 0, 35, 10, 50⟩

theorem arange_0_40_10 :
    arange 0 40 10 = [0 + (0 : Rat) * 10, 0 + (1 : Rat) * 10,
      0 + (2 : Rat) * 10, 0 + (3 : Rat) * 10] := by
  have hlen : arangeLen 0 40 10 = 4 := by
    unfold arangeLen
    have h : ⌈((40 : Rat) - 0) / 10⌉ = 4 := by norm_num
    rw [h]
    decide
  unfold arange
  rw [hlen]
  simp [List.range_succ]

/-- Counterexample to C6 as stated: for `xmin = 0`, `xmax = 40`,
`win_size = 10` the bin edges are `0, 10, 20, 30`, so a record of length
`35` — inside `[0, 40)` — falls beyond the last edge and is counted in
no bin: the sum of the bin counts is `0`, not the number of records in
`[min, max)`, which is `1`. -/
theorem hist_sum_counterexample :
    (reads_len_hist_lin [exRec35] 0 40 10).sum = 0
    ∧ ([exRec35].countP (fun r =>
        decide ((0 : Rat) ≤ (r.sequence_length_template : Rat))
          && decide ((r.sequence_length_template : Rat) < 40))) = 1
    ∧ (0 : Nat) ≠ 1 := by
  refine ⟨?_, ?_, by decide⟩
  · unfold reads_len_hist_lin
    rw [arange_0_40_10]
    simp only [histCounts, List.map_cons, List.map_nil, List.countP_cons,
      List.countP_nil]
    norm_num [exRec35]
  · simp only [List.countP_cons, List.countP_nil]
    norm_num [exRec35]

/-- C6 amended: for window `w > 0` and `xmin + w < xmax`, the sum of the
(non-normalized) bin counts equals the number of records whose length
lies in `[xmin, L]` where `L = lastEdgeLin xmin xmax w < xmax` is the
largest edge produced by `np.arange(xmin, xmax, w)`: values in
`(L, xmax)` are excluded (dropped, not clipped), values below `xmin` are
excluded, and a value exactly at `L` is included because the last
histogram bin is closed. -/
theorem reads_len_hist_lin_sum (rs : List Record) (xmin xmax w : Rat)
    (hw : 0 < w) (hspan : xmin + w < xmax) :
    lastEdgeLin xmin xmax w < xmax
    ∧ (reads_len_hist_lin rs xmin xmax w).sum
      = rs.countP (fun r =>
          decide (xmin ≤ (r.sequence_length_template : Rat))
            && decide ((r.sequence_length_template : Rat)
                ≤ lastEdgeLin xmin xmax w)) := by
  set n := arangeLen xmin xmax w with hn
  have hq1 : (1 : Rat) < (xmax - xmin) / w := by
    rw [lt_div_iff₀ hw]
    linarith
  have hceil2 : (2 : Int) ≤ ⌈(xmax - xmin) / w⌉ := by
    have := Int.lt_ceil.mpr (show ((1 : Int) : Rat) < (xmax - xmin) / w by
      push_cast
      exact hq1)
    omega
  have hn2 : 2 ≤ n := by
    rw [hn]
    unfold arangeLen
    omega
  have hcastn : ((n : Nat) : Rat) = ((⌈(xmax - xmin) / w⌉ : Int) : Rat) := by
    rw [hn]
    unfold arangeLen
    exact_mod_cast congrArg (fun z : Int => (z : Rat))
      (Int.toNat_of_nonneg (by omega))
  have hlastlt : lastEdgeLin xmin xmax w < xmax := by
    unfold lastEdgeLin
    rw [← hn]
    have hceil_lt : ((⌈(xmax - xmin) / w⌉ : Int) : Rat) < (xmax - xmin) / w + 1 :=
      Int.ceil_lt_add_one _
    have hcast1 : ((n - 1 : Nat) : Rat) = ((n : Nat) : Rat) - 1 := by
      have : (1 : Nat) ≤ n := by omega
      push_cast [this]
      ring
    rw [hcast1, hcastn]
    have : ((⌈(xmax - xmin) / w⌉ : Int) : Rat) - 1 < (xmax - xmin) / w := by
      linarith
    have h2 : (((⌈(xmax - xmin) / w⌉ : Int) : Rat) - 1) * w < xmax - xmin := by
      calc (((⌈(xmax - xmin) / w⌉ : Int) : Rat) - 1) * w
          < ((xmax - xmin) / w) * w := by
            apply mul_lt_mul_of_pos_right this hw
      _ = xmax - xmin := by field_simp
    linarith
  refine ⟨hlastlt, ?_⟩
  -- Expose the first two edges of the arange.
  have hlen : (arange xmin xmax w).length = n := by
    unfold arange
    rw [← hn]
    simp
  have hpair := arange_pairwise xmin xmax w (le_of_lt hw)
  obtain ⟨m, hm⟩ : ∃ m, n = m + 2 := ⟨n - 2, by omega⟩
  have hhead : (arange xmin xmax w).head? = some (xmin + ((0 : Nat) : Rat) * w) := by
    unfold arange
    rw [← hn, hm, List.range_succ_eq_map]
    simp
  have hlast : (arange xmin xmax w).getLast?
      = some (lastEdgeLin xmin xmax w) := by
    unfold arange
    rw [← hn, hm, List.range_succ, List.map_append]
    simp only [List.map_cons, List.map_nil]
    rw [List.getLast?_concat]
    unfold lastEdgeLin
    rw [← hn, hm]
    norm_num
  cases hl : arange xmin xmax w with
  | nil =>
    rw [hl] at hlen
    simp at hlen
    omega
  | cons e0 tl =>
    cases htl : tl with
    | nil =>
      rw [hl, htl] at hlen
      simp at hlen
      omega
    | cons e1 rest =>
      rw [htl] at hl
      have he0 : e0 = xmin := by
        rw [hl] at hhead
        simp at hhead
        exact hhead
      have hgl : (e1 :: rest).getLast (List.cons_ne_nil e1 rest)
          = lastEdgeLin xmin xmax w := by
        rw [hl] at hlast
        rw [List.getLast?_eq_getLast _ (List.cons_ne_nil e0 (e1 :: rest))] at hlast
        have := Option.some.inj hlast
        rw [← this]
        exact (List.getLast_cons (List.cons_ne_nil e1 rest)).symm
      have hpair' : (e0 :: e1 :: rest).Pairwise (· ≤ ·) := by
        rw [← hl]
        exact hpair
      unfold reads_len_hist_lin
      rw [hl, histCounts_sum _ _ _ _ hpair', hgl, he0, List.countP_map]
      rfl

def exRec5 : Record := ⟨"r2", "A", 2, 0, 0, 5, 12, 40⟩

/-- Witness for C6 amended at `xmin = 0`, `xmax = 40`, `w = 10` on a
two-record table (lengths 5 and 35). -/
theorem reads_len_hist_lin_sum_witness :
    lastEdgeLin 0 40 10 < 40
    ∧ (reads_len_hist_lin [exRec5, exRec35] 0 40 10).sum
      = ([exRec5, exRec35]).countP (fun r =>
          decide ((0 : Rat) ≤ (r.sequence_length_template : Rat))
            && decide ((r.sequence_length_template : Rat)
                ≤ lastEdgeLin 0 40 10)) :=
  reads_len_hist_lin_sum [exRec5, exRec35] 0 40 10 (by norm_num) (by norm_num)

/-! ### Logarithmic bin edges (`reads_len_distribution` with `xlog`) -/

/-- `int(np.log10(q))` for `q > 0`: `log10` truncated toward zero
(`int()` truncates toward zero, so `⌊log10 q⌋` for `q ≥ 1` and
`⌈log10 q⌉` for `0 < q < 1`). -/
def tlog (q : Rat) : Int :=
  if 1 ≤ q then (Nat.log 10 (⌊q⌋).toNat : Int)
  else -(Nat.log 10 (⌊1/q⌋).toNat : Int)

/-- `int(np.log10(q))` with the Python failure modes:
`np.log10(0) = -inf` and `int(-inf)` raises `OverflowError`;
`np.log10` of a negative number is `nan` and `int(nan)` raises
`ValueError`. -/
def int_log10 (q : Rat) : Except PyErr Int :=
  if q = 0 then .error .overflowError
  else if q < 0 then .error .valueError
  else .ok (tlog q)

/-- `np.linspace(a, b, num=n, endpoint=True)` over the rationals. -/
def linspaceQ (a b : Rat) (n : Nat) : List Rat :=
  if n = 1 then [a]
  else (List.range n).map
    (fun i : Nat => a + (i : Rat) * (b - a) / ((n : Rat) - 1))

/-- `np.logspace(a, b, num=n, endpoint=True, base=10)` tracked in
exponent space: the produced bin edges are `10 ^ e` for the listed
exponents `e` (comparing exponent lists is faithful because
`10 ^ ·` is injective). -/
def logspaceExp (a b : Int) (n : Nat) : List Rat :=
  linspaceQ (a : Rat) (b : Rat) n

def seqLenValues (rs : List Record) : List Rat :=
  rs.map (fun r => (r.sequence_length_template : Rat))

/-- Line 264-265: `if not xmax: xmax = max(self.df['sequence_length_template'])`
— Python truthiness makes both `None` and `0` fall back to the data
maximum. -/
def resolveXmax (rs : List Record) (xo : Option Rat) : Except PyErr Rat :=
  match xo with
  | none => pyMax (seqLenValues rs)
  | some x => if x = 0 then pyMax (seqLenValues rs) else .ok x

/-- `reads_len_distribution` with `xlog=True` (line 268), bin-edge
computation, in exponent space:
`np.logspace(int(np.log10(xmin)), int(np.log10(xmax))+1,
num=int(xmax/win_size), endpoint=True, base=10)`.
`int(xmax/win_size)` truncates toward zero; it is modelled with
`Int.floor`, which agrees whenever the quotient is non-negative (always
the case on the success path with `w > 0`, since `xmax > 0` there). -/
def reads_len_log_exponents (rs : List Record) (xmin : Rat)
    (xo : Option Rat) (w : Rat) : Except PyErr (List Rat) := do
  let xmax ← resolveXmax rs xo
  let a ← int_log10 xmin
  let b ← int_log10 xmax
  pure (logspaceExp a (b + 1) ((⌊xmax / w⌋).toNat))

/-- Mathematical `⌊log10 q⌋` for rational `q > 0` (used only to state the
spec's claimed edge span). -/
def floorLog10 (q : Rat) : Int :=
  if 1 ≤ q then (Nat.log 10 (⌊q⌋).toNat : Int)
  else -(Nat.clog 10 (⌈1/q⌉).toNat : Int)

/-- Mathematical `⌈log10 q⌉` for rational `q > 0`. -/
def ceilLog10 (q : Rat) : Int :=
  if 1 ≤ q then (Nat.clog 10 (⌈q⌉).toNat : Int)
  else -(Nat.log 10 (⌊1/q⌋).toNat : Int)

/-- Modelled from the spec: "edges spaced as powers of ten spanning
floor(log10(min)) to ceil(log10(max))+1" — the exponent list
`floorLog10 min, ..., ceilLog10 max + 1`, one edge per integer power of
ten. -/
def specPowerOfTenExponents (mn mx : Rat) : List Rat :=
  (List.range ((ceilLog10 mx + 1 - floorLog10 mn).toNat + 1)).map
    (fun i : Nat => ((floorLog10 mn : Int) : Rat) + (i : Rat))

theorem log_eval_500 : Nat.log 10 500 = 2 :=
  Nat.log_eq_of_pow_le_of_lt_pow (by norm_num) (by norm_num)

theorem clog_eval_500 : Nat.clog 10 500 = 3 := by
  have h1 : Nat.clog 10 500 ≤ 3 :=
    (Nat.le_pow_iff_clog_le (by norm_num)).mp (by norm_num)
  have h2 : 2 < Nat.clog 10 500 :=
    (Nat.pow_lt_iff_lt_clog (by norm_num)).mp (by norm_num)
  omega

/-- Counterexample to C4 as stated: at `xmin = 1`, `xmax = 500`,
`win_size = 100` the computation succeeds and produces the 5
exponents `0, 3/4, 3/2, 9/4, 3` — five geometrically spaced edges from
`10^0` to `10^3`, which are not powers of ten (`10^(3/4)` is not) and do
not span `floor(log10 1) = 0` to `ceil(log10 500) + 1 = 4` as the claim
requires (the claimed exponent list is `0, 1, 2, 3, 4`). -/
theorem log_bins_counterexample :
    reads_len_log_exponents [] 1 (some 500) 100
      = .ok [0, 3/4, 3/2, 9/4, 3]
    ∧ specPowerOfTenExponents 1 500 = [0, 1, 2, 3, 4]
    ∧ ([0, 3/4, 3/2, 9/4, 3] : List Rat) ≠ [0, 1, 2, 3, 4] := by
  have hres : resolveXmax [] (some 500) = .ok 500 := by
    simp only [resolveXmax]
    rw [if_neg (by norm_num : ¬ (500 : Rat) = 0)]
  have ha : int_log10 (1 : Rat) = .ok 0 := by
    unfold int_log10 tlog
    rw [if_neg (by norm_num : ¬ (1 : Rat) = 0),
      if_neg (by norm_num : ¬ (1 : Rat) < 0), if_pos (le_refl (1 : Rat))]
    have hf : (⌊(1 : Rat)⌋).toNat = 1 := by norm_num
    rw [hf, Nat.log_one_right]
    rfl
  have hb : int_log10 (500 : Rat) = .ok 2 := by
    unfold int_log10 tlog
    rw [if_neg (by norm_num : ¬ (500 : Rat) = 0),
      if_neg (by norm_num : ¬ (500 : Rat) < 0),
      if_pos (by norm_num : (1 : Rat) ≤ 500)]
    have hf : (⌊(500 : Rat)⌋).toNat = 500 := by
      have h500 : ⌊(500 : Rat)⌋ = 500 := by norm_num
      rw [h500]
      rfl
    rw [hf, log_eval_500]
    rfl
  refine ⟨?_, ?_, ?_⟩
  · unfold reads_len_log_exponents
    rw [hres]
    dsimp only [bind, Except.bind]
    rw [ha]
    dsimp only
    rw [hb]
    dsimp only
    have hn : (⌊(500 : Rat) / 100⌋).toNat = 5 := by
      have h5 : ⌊(500 : Rat) / 100⌋ = 5 := by norm_num
      rw [h5]
      rfl
    rw [hn]
    unfold logspaceExp linspaceQ
    rw [if_neg (by norm_num : ¬ (5 : Nat) = 1)]
    simp only [pure, Except.pure, List.range_succ, List.range_zero,
      List.map_append, List.map_cons, List.map_nil, List.nil_append,
      List.append_assoc, List.cons_append]
    norm_num
  · unfold specPowerOfTenExponents floorLog10 ceilLog10
    rw [if_pos (le_refl (1 : Rat)), if_pos (by norm_num : (1 : Rat) ≤ 500)]
    have h1 : (⌊(1 : Rat)⌋).toNat = 1 := by norm_num
    have h2 : (⌈(500 : Rat)⌉).toNat = 500 := by
      have h500 : ⌈(500 : Rat)⌉ = 500 := by norm_num
      rw [h500]
      rfl
    rw [h1, h2, clog_eval_500, Nat.log_one_right]
    have h3 : (((3 : Nat) : Int) + 1 - ((0 : Nat) : Int)).toNat + 1 = 5 := by
      decide
    rw [h3]
    simp only [List.range_succ, List.range_zero, List.map_append,
      List.map_cons, List.map_nil, List.nil_append, List.append_assoc,
      List.cons_append]
    norm_num
  · intro hcontr
    have h2 := List.cons.inj hcontr
    have h3 := List.cons.inj h2.2
    exact absurd h3.1 (by norm_num)

theorem tlog_mono {p q : Rat} (hp : 0 < p) (hpq : p ≤ q) :
    tlog p ≤ tlog q := by
  unfold tlog
  by_cases h1 : 1 ≤ p
  · have h2 : 1 ≤ q := le_trans h1 hpq
    rw [if_pos h1, if_pos h2]
    have hfl : (⌊p⌋).toNat ≤ (⌊q⌋).toNat :=
      Int.toNat_le_toNat (Int.floor_mono hpq)
    exact_mod_cast Nat.log_mono_right hfl
  · by_cases h2 : 1 ≤ q
    · rw [if_neg h1, if_pos h2]
      omega
    · rw [if_neg h1, if_neg h2]
      have h0q : 0 < q := lt_of_lt_of_le hp hpq
      have hinv : 1/q ≤ 1/p := one_div_le_one_div_of_le hp hpq
      have hfl : (⌊1/q⌋).toNat ≤ (⌊1/p⌋).toNat :=
        Int.toNat_le_toNat (Int.floor_mono hinv)
      have := Nat.log_mono_right (b := 10) hfl
      omega

theorem linspaceQ_head (a b : Rat) (n : Nat) (h : 2 ≤ n) :
    (linspaceQ a b n).head? = some a := by
  unfold linspaceQ
  rw [if_neg (by omega)]
  obtain ⟨m, rfl⟩ : ∃ m, n = m + 1 := ⟨n - 1, by omega⟩
  rw [List.range_succ_eq_map]
  simp

theorem linspaceQ_getLast (a b : Rat) (n : Nat) (h : 2 ≤ n) :
    (linspaceQ a b n).getLast? = some b := by
  unfold linspaceQ
  rw [if_neg (by omega)]
  obtain ⟨m, rfl⟩ : ∃ m, n = m + 1 := ⟨n - 1, by omega⟩
  rw [List.range_succ, List.map_append]
  simp only [List.map_cons, List.map_nil]
  rw [List.getLast?_concat]
  congr 1
  have hm1 : ((m + 1 : Nat) : Rat) - 1 = (m : Rat) := by
    push_cast
    ring
  rw [hm1]
  have hm0 : (m : Rat) ≠ 0 := by
    have h1 : 1 ≤ m := by omega
    have : m ≠ 0 := by omega
    exact_mod_cast Nat.cast_ne_zero.mpr this
  field_simp

theorem linspaceQ_pairwise (a b : Rat) (n : Nat) (hab : a ≤ b) :
    (linspaceQ a b n).Pairwise (· ≤ ·) := by
  unfold linspaceQ
  by_cases h1 : n = 1
  · rw [if_pos h1]
    simp
  · rw [if_neg h1]
    by_cases h0 : n = 0
    · rw [h0]
      simp
    · rw [List.pairwise_map]
      refine (List.pairwise_lt_range _).imp ?_
      intro i j hij
      have hn2 : 2 ≤ n := by omega
      have hden : (0 : Rat) < (n : Rat) - 1 := by
        have : (2 : Rat) ≤ (n : Rat) := by exact_mod_cast hn2
        linarith
      have hd : (0 : Rat) ≤ (b - a) / ((n : Rat) - 1) :=
        div_nonneg (by linarith) (le_of_lt hden)
      have hij' : (i : Rat) ≤ (j : Rat) := by exact_mod_cast le_of_lt hij
      have hmul : (i : Rat) * ((b - a) / ((n : Rat) - 1))
          ≤ (j : Rat) * ((b - a) / ((n : Rat) - 1)) :=
        mul_le_mul_of_nonneg_right hij' hd
      calc a + (i : Rat) * (b - a) / ((n : Rat) - 1)
          = a + (i : Rat) * ((b - a) / ((n : Rat) - 1)) := by ring
      _ ≤ a + (j : Rat) * ((b - a) / ((n : Rat) - 1)) := by linarith
      _ = a + (j : Rat) * (b - a) / ((n : Rat) - 1) := by ring

/-- C4 amended: in logarithmic mode the bin-edge computation **fails**
whenever `xmin ≤ 0` (with `OverflowError` for `xmin = 0` from
`int(np.log10(0)) = int(-inf)`, and `ValueError` for `xmin < 0` from
`int(nan)`) — not with a typed `InvalidRangeError`; and when
`0 < xmin ≤ xmax` it succeeds, producing `int(xmax/win_size)`
geometrically spaced edges whose exponents run monotonically from
`t(xmin)` to `t(xmax) + 1`, where `t` is `log10` truncated toward zero —
these are in general not powers of ten, and the top exponent is
`t(xmax)+1`, not `ceil(log10(xmax))+1`. -/
theorem reads_len_log_behavior (rs : List Record) (xmin xm w : Rat)
    (hxm0 : xm ≠ 0) (hw : 0 < w) :
    (xmin = 0 →
      reads_len_log_exponents rs xmin (some xm) w = .error .overflowError)
    ∧ (xmin < 0 →
      reads_len_log_exponents rs xmin (some xm) w = .error .valueError)
    ∧ (0 < xmin → xmin ≤ xm → 2 ≤ (⌊xm / w⌋).toNat →
        ∃ es, reads_len_log_exponents rs xmin (some xm) w = .ok es
          ∧ es.head? = some ((tlog xmin : Int) : Rat)
          ∧ es.getLast? = some ((tlog xm + 1 : Int) : Rat)
          ∧ es.Pairwise (· ≤ ·)) := by
  have hres : resolveXmax rs (some xm) = .ok xm := by
    simp only [resolveXmax]
    rw [if_neg hxm0]
  refine ⟨?_, ?_, ?_⟩
  · intro h0
    have ha : int_log10 xmin = .error .overflowError := by
      unfold int_log10
      rw [if_pos h0]
    unfold reads_len_log_exponents
    rw [hres]
    dsimp only [bind, Except.bind]
    rw [ha]
  · intro h0
    have ha : int_log10 xmin = .error .valueError := by
      unfold int_log10
      rw [if_neg (ne_of_lt h0), if_pos h0]
    unfold reads_len_log_exponents
    rw [hres]
    dsimp only [bind, Except.bind]
    rw [ha]
  · intro hpos hle hn2
    have hxm : 0 < xm := lt_of_lt_of_le hpos hle
    have ha : int_log10 xmin = .ok (tlog xmin) := by
      unfold int_log10
      rw [if_neg (ne_of_gt hpos), if_neg (not_lt.mpr (le_of_lt hpos))]
    have hb : int_log10 xm = .ok (tlog xm) := by
      unfold int_log10
      rw [if_neg (ne_of_gt hxm), if_neg (not_lt.mpr (le_of_lt hxm))]
    refine ⟨logspaceExp (tlog xmin) (tlog xm + 1) ((⌊xm / w⌋).toNat),
      ?_, ?_, ?_, ?_⟩
    · unfold reads_len_log_exponents
      rw [hres]
      dsimp only [bind, Except.bind]
      rw [ha]
      dsimp only
      rw [hb]
      rfl
    · exact linspaceQ_head _ _ _ hn2
    · have := linspaceQ_getLast ((tlog xmin : Int) : Rat)
        ((tlog xm + 1 : Int) : Rat) ((⌊xm / w⌋).toNat) hn2
      unfold logspaceExp
      exact this
    · apply linspaceQ_pairwise
      have hmono : tlog xmin ≤ tlog xm := tlog_mono hpos hle
      have : tlog xmin ≤ tlog xm + 1 := by omega
      exact_mod_cast this

/-! ### C1 — channel activity misses channel 512 -/

/-- Insertion into an ascending list of channel indices. -/
def insertAsc (x : Nat) : List Nat → List Nat
  | [] => [x]
  | y :: ys => if x ≤ y then x :: y :: ys else y :: insertAsc x ys

/-- `s.sort_index()` (line 125): sort the channel keys ascending. -/
def sortAsc : List Nat → List Nat
  | [] => []
  | x :: xs => insertAsc x (sortAsc xs)

/-- One step of the fill loop `for i in range(1, 512): if i not in
s.index: s.loc[i] = 0` (lines 120-122): add the key `i + 1` when it is
missing. -/
def fillStep (acc : List Nat) (i : Nat) : List Nat :=
  if (i + 1) ∈ acc then acc else acc ++ [i + 1]

/-- `channels_activity(level="reads")` (lines 108-125), data part:
`value_counts` of the `channel` column (one key per channel that
occurs), then the fill loop `for i in range(1, 512)` which adds a zero
entry for each *missing* key — note `range(1, 512)` covers only the
channels `1..511` — and finally `sort_index`, giving the
(channel, count) table in ascending channel order; filled-in channels
have no record, so their count is `0`.  (Levels `"bases"`/`"events"`
instead read `n.df`, the undefined ambient global — see
`output_over_time_reads_ambient_state`.) -/
def channels_activity_reads (rs : List Record) : List (Nat × Nat) :=
  (sortAsc ((List.range 511).foldl fillStep
      (distinctKeys (rs.map Record.channel)))).map
    (fun c => (c, rs.countP (fun r => r.channel == c)))

/-- `s.values.reshape(16, 32)` (line 128): `np.reshape` raises
`ValueError` unless the series holds exactly `16 * 32 = 512` entries. -/
def reshape16x32 (l : List (Nat × Nat)) : Except PyErr Unit :=
  if l.length = 16 * 32 then .ok () else .error .valueError

theorem insertAsc_length (x : Nat) (l : List Nat) :
    (insertAsc x l).length = l.length + 1 := by
  induction l with
  | nil => rfl
  | cons y ys ih =>
    by_cases hy : x ≤ y
    · simp [insertAsc, hy]
    · simp [insertAsc, hy, ih]

theorem sortAsc_length (l : List Nat) : (sortAsc l).length = l.length := by
  induction l with
  | nil => rfl
  | cons x xs ih => simp [sortAsc, insertAsc_length, ih]

theorem mem_insertAsc {x y : Nat} {l : List Nat} :
    y ∈ insertAsc x l ↔ y = x ∨ y ∈ l := by
  induction l with
  | nil => simp [insertAsc]
  | cons z zs ih =>
    by_cases hz : x ≤ z
    · simp [insertAsc, hz]
    · simp [insertAsc, hz, ih]
      tauto

theorem mem_sortAsc {y : Nat} {l : List Nat} : y ∈ sortAsc l ↔ y ∈ l := by
  induction l with
  | nil => simp [sortAsc]
  | cons x xs ih => simp [sortAsc, mem_insertAsc, ih]

theorem mem_fillFold {a : Nat} :
    ∀ (l acc : List Nat),
      a ∈ l.foldl fillStep acc ↔ (a ∈ acc ∨ ∃ i ∈ l, a = i + 1) := by
  intro l
  induction l with
  | nil => intro acc; simp
  | cons x xs ih =>
    intro acc
    simp only [List.foldl_cons]
    by_cases hx : (x + 1) ∈ acc
    · rw [show fillStep acc x = acc from by unfold fillStep; rw [if_pos hx]]
      rw [ih]
      constructor
      · rintro (h | ⟨i, hi, rfl⟩)
        · exact Or.inl h
        · exact Or.inr ⟨i, List.mem_cons_of_mem _ hi, rfl⟩
      · rintro (h | ⟨i, hi, rfl⟩)
        · exact Or.inl h
        · rcases List.mem_cons.mp hi with rfl | hi
          · exact Or.inl hx
          · exact Or.inr ⟨i, hi, rfl⟩
    · rw [show fillStep acc x = acc ++ [x + 1] from by
        unfold fillStep; rw [if_neg hx]]
      rw [ih]
      constructor
      · rintro (h | ⟨i, hi, rfl⟩)
        · rcases List.mem_append.mp h with h | h
          · exact Or.inl h
          · simp only [List.mem_singleton] at h
            exact Or.inr ⟨x, by simp, h⟩
        · exact Or.inr ⟨i, List.mem_cons_of_mem _ hi, rfl⟩
      · rintro (h | ⟨i, hi, rfl⟩)
        · exact Or.inl (List.mem_append_left _ h)
        · rcases List.mem_cons.mp hi with rfl | hi
          · exact Or.inl (List.mem_append_right _ (by simp))
          · exact Or.inr ⟨i, hi, rfl⟩

theorem nodup_fillFold :
    ∀ (l acc : List Nat), acc.Nodup → (l.foldl fillStep acc).Nodup := by
  intro l
  induction l with
  | nil => intro acc h; simpa using h
  | cons x xs ih =>
    intro acc h
    simp only [List.foldl_cons]
    by_cases hx : (x + 1) ∈ acc
    · rw [show fillStep acc x = acc from by unfold fillStep; rw [if_pos hx]]
      exact ih _ h
    · rw [show fillStep acc x = acc ++ [x + 1] from by
        unfold fillStep; rw [if_neg hx]]
      apply ih
      rw [List.nodup_append]
      exact ⟨h, List.nodup_singleton _, by
        intro a ha hcontr
        simp only [List.mem_singleton] at hcontr
        subst hcontr
        exact hx ha⟩

/-- C1 fails on the code: for a run whose single record sits on channel
3, the fill loop `for i in range(1, 512)` tops the table up to the
channels `1..511` only, so channel 512 stays absent: the result has 511
entries, none of them keyed 512, and the function's own reshape to the
16×32 flowcell grid then raises `ValueError`.  (The claim — and the
reshape on the very next source line — require exactly 512 entries.) -/
theorem channels_activity_misses_channel_512 :
    (channels_activity_reads [exRecA]).length = 511
    ∧ ((channels_activity_reads [exRecA]).all (fun p => p.1 != 512)) = true
    ∧ reshape16x32 (channels_activity_reads [exRecA])
      = .error .valueError := by
  have hpres : distinctKeys ([exRecA].map Record.channel) = [3] := rfl
  have hmem : ∀ a : Nat,
      a ∈ (List.range 511).foldl fillStep [3] ↔ (1 ≤ a ∧ a ≤ 511) := by
    intro a
    rw [mem_fillFold]
    constructor
    · rintro (h | ⟨i, hi, rfl⟩)
      · simp only [List.mem_singleton] at h
        omega
      · have := List.mem_range.mp hi
        omega
    · rintro ⟨h1, h2⟩
      exact Or.inr ⟨a - 1, List.mem_range.mpr (by omega), by omega⟩
  have hnodup : ((List.range 511).foldl fillStep [3]).Nodup :=
    nodup_fillFold _ _ (by simp)
  have hlenfill : ((List.range 511).foldl fillStep [3]).length = 511 := by
    have hcard := List.toFinset_card_of_nodup hnodup
    have hset : ((List.range 511).foldl fillStep [3]).toFinset
        = Finset.Icc 1 511 := by
      ext a
      simp only [List.mem_toFinset, Finset.mem_Icc]
      exact hmem a
    rw [hset, Nat.card_Icc] at hcard
    omega
  have hchan : channels_activity_reads [exRecA]
      = (sortAsc ((List.range 511).foldl fillStep [3])).map
          (fun c => (c, [exRecA].countP (fun r => r.channel == c))) := by
    unfold channels_activity_reads
    rw [hpres]
  have hlen : (channels_activity_reads [exRecA]).length = 511 := by
    rw [hchan, List.length_map, sortAsc_length, hlenfill]
  refine ⟨hlen, ?_, ?_⟩
  · rw [List.all_eq_true]
    intro p hp
    rw [hchan] at hp
    rcases List.mem_map.mp hp with ⟨c, hc, rfl⟩
    have hc' := (hmem c).mp (mem_sortAsc.mp hc)
    simp only [bne_iff_ne, ne_eq]
    omega
  · unfold reshape16x32
    rw [hlen]
    rw [if_neg (by decide)]

/-- Witness for C4 amended: `xmin = -1` fails with `ValueError`;
`xmin = 1`, `xmax = 10`, `win_size = 1` succeeds with monotone
exponents from `tlog 1` to `tlog 10 + 1`. -/
theorem reads_len_log_behavior_witness :
    reads_len_log_exponents [] (-1) (some 10) 1 = .error .valueError
    ∧ ∃ es, reads_len_log_exponents [] 1 (some 10) 1 = .ok es
        ∧ es.head? = some ((tlog 1 : Int) : Rat)
        ∧ es.getLast? = some ((tlog 10 + 1 : Int) : Rat)
        ∧ es.Pairwise (· ≤ ·) :=
  ⟨(reads_len_log_behavior [] (-1) 10 1 (by norm_num) (by norm_num)).2.1
      (by norm_num),
   (reads_len_log_behavior [] 1 10 1 (by norm_num) (by norm_num)).2.2
      (by norm_num) (by norm_num)
      (by
        have h10 : ⌊(10 : Rat) / 1⌋ = 10 := by norm_num
        rw [h10]
        decide)⟩

end PycoQC
